import Mathlib

/-!
Verification development for the nj-assistant retrieval and answer pipeline.

The Python services under `backend/app/services/` are shallowly embedded:
pure functions become Lean functions, Python floats become `ℚ` (the constants
involved are exact decimals), Python regular expressions become explicit
character scanners over `List Char`, and the SQLite document store (an
external collaborator per the spec) is passed in as explicit data.

Sections below follow the source files:
  * generic character/string helpers (Python `str` and `re` primitives);
  * `hybrid_chunks.py`: `reciprocal_rank_fusion`, `compute_confidence`;
  * `ask.py`: `_llm_fallback_answer`, `_is_relevant_hit`, `_weak_response`,
    the `ask_question` error boundary, and the numeric-hallucination guard;
  * `chunking.py`: `split_page_into_segments`, `chunk_document_pages`;
  * `chunk_ingestion.py`: chunk classification, table extraction,
    `_stable_table_uid`, and the per-document `rebuild_chunks` body;
  * `bm25_chunks.py`: `bm25_chunks_search_filtered`.
-/

/-! ## Python string primitives -/

/-- Python regex word character (`\w` over this ASCII corpus): alphanumeric or underscore. -/
def isWordC (c : Char) : Bool := c.isAlphanum || c = '_'

/-- Python regex whitespace (`\s`): space, tab, newline, carriage return, vertical tab, form feed. -/
def isWsC (c : Char) : Bool :=
  c = ' ' || c = '\t' || c = '\n' || c = '\r' || c = '\x0b' || c = '\x0c'

/-- Python `str.rstrip()`. -/
def pyStripRight (l : List Char) : List Char := ((l.reverse).dropWhile isWsC).reverse

/-- Python `str.strip()`. -/
def pyStrip (l : List Char) : List Char := pyStripRight (l.dropWhile isWsC)

/-- Python `str.lower()` (ASCII corpus). -/
def pyLower (l : List Char) : List Char := l.map Char.toLower

/-- Python substring test `needle in hay`. -/
def containsSubL (needle : List Char) : List Char → Bool
  | [] => needle.isEmpty
  | c :: cs => needle.isPrefixOf (c :: cs) || containsSubL needle cs

/-- Maximal runs of characters satisfying `p` (worker with reversed-accumulator). -/
def runsByAux (p : Char → Bool) : List Char → List Char → List (List Char)
  | [], acc => if acc.isEmpty then [] else [acc.reverse]
  | c :: cs, acc =>
    if p c then runsByAux p cs (c :: acc)
    else if acc.isEmpty then runsByAux p cs []
    else acc.reverse :: runsByAux p cs []

/-- Maximal runs of characters satisfying `p`; models `re.findall` for
    patterns of the shape `[class]+` bracketed by complement characters. -/
def runsBy (p : Char → Bool) (l : List Char) : List (List Char) := runsByAux p l []

/-- Keep the first occurrence of each element (Python `set` membership order-insensitively). -/
def uniqFirstAux (seen : List (List Char)) : List (List Char) → List (List Char)
  | [] => []
  | x :: xs =>
    if seen.contains x then uniqFirstAux seen xs
    else x :: uniqFirstAux (x :: seen) xs

/-- Deduplicate keeping first occurrences. -/
def uniqFirst (l : List (List Char)) : List (List Char) := uniqFirstAux [] l

/-- Python `str.splitlines()` for newline-separated text (the corpus uses `\n`). -/
def pySplitLines (s : String) : List (List Char) :=
  (s.data.splitOn '\n')

/-! ## hybrid_chunks.py: Reciprocal Rank Fusion and confidence -/

/-- One iteration family of `reciprocal_rank_fusion`'s inner loop
    (`for rank, key in enumerate(lst, start=1): fused[key] = fused.get(key, 0.0) + 1.0 / (k + rank)`).
    The dict is modelled as a total function with default `0`. -/
def rrf_add_list (k : ℕ) : List ℕ → ℕ → (ℕ → ℚ) → (ℕ → ℚ)
  | [], _, fused => fused
  | key :: rest, rank, fused =>
    rrf_add_list k rest (rank + 1)
      (Function.update fused key (fused key + 1 / ((k + rank : ℕ) : ℚ)))

/-- `reciprocal_rank_fusion(ranked_lists, k=60)` from `hybrid_chunks.py` (lines 127-135). -/
def reciprocal_rank_fusion (ranked_lists : List (List ℕ)) (k : ℕ := 60) : ℕ → ℚ :=
  ranked_lists.foldl (fun fused lst => rrf_add_list k lst 1 fused) (fun _ => 0)

/-- `compute_confidence(top_rrf, overlap_top10)` from `hybrid_chunks.py` (lines 138-143). -/
def compute_confidence (top_rrf : ℚ) (overlap_top10 : ℕ) : String :=
  if 0.035 ≤ top_rrf ∧ 1 ≤ overlap_top10 then "strong"
  else if 0.02 ≤ top_rrf then "medium"
  else "weak"

/-- Numeric height of a confidence label, for stating monotonicity. -/
def confidence_level : String → ℕ
  | "strong" => 2
  | "medium" => 1
  | _ => 0

lemma rrf_add_list_eq (k : ℕ) (l : List ℕ) (hl : l.Nodup) (rank : ℕ)
    (fused : ℕ → ℚ) (key : ℕ) :
    rrf_add_list k l rank fused key
      = fused key
        + (if key ∈ l then 1 / ((k + (List.indexOf key l + rank) : ℕ) : ℚ) else 0) := by
  induction l generalizing rank fused with
  | nil => simp [rrf_add_list]
  | cons a rest ih =>
    rcases List.nodup_cons.mp hl with ⟨ha, hrest⟩
    rw [rrf_add_list, ih hrest]
    by_cases hk : key = a
    · subst hk
      have hnotin : key ∉ rest := ha
      simp [hnotin, Function.update_same, List.indexOf_cons_self]
    · rw [Function.update_noteq hk]
      by_cases hmem : key ∈ rest
      · have hne : a ≠ key := fun h => hk h.symm
        have hidx : List.indexOf key (a :: rest) = (List.indexOf key rest).succ :=
          List.indexOf_cons_ne rest hne
        have hmem' : key ∈ a :: rest := List.mem_cons_of_mem a hmem
        rw [if_pos hmem, if_pos hmem', hidx]
        have harg : k + (List.indexOf key rest + (rank + 1))
            = k + ((List.indexOf key rest).succ + rank) := by omega
        rw [harg]
      · have hmem' : key ∉ a :: rest := by
          intro h
          rcases List.mem_cons.mp h with h1 | h2
          · exact hk h1
          · exact hmem h2
        rw [if_neg hmem, if_neg hmem']

lemma rrf_foldl_eq (k : ℕ) (lists : List (List ℕ)) (hnd : ∀ l ∈ lists, l.Nodup)
    (fused : ℕ → ℚ) (key : ℕ) :
    (lists.foldl (fun f lst => rrf_add_list k lst 1 f) fused) key
      = fused key
        + ((lists.filter (fun l => l.contains key)).map
            (fun l => 1 / ((k + (List.indexOf key l + 1) : ℕ) : ℚ))).sum := by
  induction lists generalizing fused with
  | nil => simp
  | cons l ls ih =>
    have hl : l.Nodup := hnd l (List.mem_cons_self _ _)
    have hls : ∀ m ∈ ls, m.Nodup := fun m hm => hnd m (List.mem_cons_of_mem _ hm)
    rw [List.foldl_cons, ih hls, rrf_add_list_eq k l hl 1 fused key]
    by_cases hmem : key ∈ l
    · have hc : l.contains key = true := List.elem_eq_true_of_mem hmem
      rw [List.filter_cons, if_pos hc]
      simp only [List.map_cons, List.sum_cons]
      rw [if_pos hmem]
      ring
    · have hc : ¬ (l.contains key = true) := by
        intro h
        exact hmem (List.mem_of_elem_eq_true (by simpa using h))
      rw [List.filter_cons, if_neg hc]
      rw [if_neg hmem]
      ring

/-- Claim C6: with duplicate-free ranked candidate lists, every item's fused RRF score
    is the sum over exactly the lists containing the item of `1 / (60 + rank)` with
    `rank` the 1-based position of the item in that list; lists not containing the
    item contribute nothing (they are filtered out of the sum). -/
theorem C6_rrf_fused_score (ranked_lists : List (List ℕ))
    (hnd : ∀ l ∈ ranked_lists, l.Nodup) (key : ℕ) :
    reciprocal_rank_fusion ranked_lists 60 key
      = ((ranked_lists.filter (fun l => l.contains key)).map
          (fun l => 1 / ((60 + (List.indexOf key l + 1) : ℕ) : ℚ))).sum := by
  unfold reciprocal_rank_fusion
  rw [rrf_foldl_eq 60 ranked_lists hnd (fun _ => 0) key]
  simp

/-- Witness for C6 at the concrete family `[[1,2],[2,3]]` and item `2`. -/
theorem C6_rrf_fused_score_witness :
    (([[1,2],[2,3]] : List (List ℕ)).all (fun l => decide l.Nodup)) = true ∧
    reciprocal_rank_fusion [[1,2],[2,3]] 60 2
      = (([[1,2],[2,3]].filter (fun l => l.contains 2)).map
          (fun l => 1 / ((60 + (List.indexOf 2 l + 1) : ℕ) : ℚ))).sum :=
  ⟨by decide, C6_rrf_fused_score [[1,2],[2,3]] (by decide) 2⟩

/-- Claim C5: `compute_confidence` is exactly the threshold rule
    (strong iff `s ≥ 0.035 ∧ n ≥ 1`; medium iff `s ≥ 0.02` but not strong;
    weak iff `s < 0.02`), and consequently the level is monotonically
    non-increasing as the top fused score decreases with the overlap fixed. -/
theorem C5_confidence_threshold_monotone (s s' : ℚ) (n : ℕ) (h : s' ≤ s) :
    (compute_confidence s n = "strong" ↔ (0.035 ≤ s ∧ 1 ≤ n)) ∧
    (compute_confidence s n = "medium" ↔ (0.02 ≤ s ∧ ¬(0.035 ≤ s ∧ 1 ≤ n))) ∧
    (compute_confidence s n = "weak" ↔ s < 0.02) ∧
    confidence_level (compute_confidence s' n) ≤ confidence_level (compute_confidence s n) := by
  have h35 : (0.02 : ℚ) ≤ 0.035 := by norm_num
  refine ⟨?_, ?_, ?_, ?_⟩
  · unfold compute_confidence
    by_cases hs : 0.035 ≤ s ∧ 1 ≤ n
    · simp [hs]
    · rw [if_neg hs]
      by_cases hm : (0.02 : ℚ) ≤ s <;> simp [hm, hs]
  · unfold compute_confidence
    by_cases hs : 0.035 ≤ s ∧ 1 ≤ n
    · simp [hs]
    · rw [if_neg hs]
      by_cases hm : (0.02 : ℚ) ≤ s <;> simp [hm, hs]
  · unfold compute_confidence
    by_cases hs : 0.035 ≤ s ∧ 1 ≤ n
    · have : (0.02 : ℚ) ≤ s := le_trans h35 hs.1
      simp [hs, not_lt.mpr this]
    · rw [if_neg hs]
      by_cases hm : (0.02 : ℚ) ≤ s
      · simp [hm, not_lt.mpr hm]
      · simp [hm, lt_of_not_le hm]
  · unfold compute_confidence
    by_cases hs' : 0.035 ≤ s' ∧ 1 ≤ n
    · have hs : 0.035 ≤ s ∧ 1 ≤ n := ⟨le_trans hs'.1 h, hs'.2⟩
      simp [hs', hs]
    · rw [if_neg hs']
      by_cases hm' : (0.02 : ℚ) ≤ s'
      · have hm : (0.02 : ℚ) ≤ s := le_trans hm' h
        rw [if_pos hm']
        by_cases hs : 0.035 ≤ s ∧ 1 ≤ n
        · simp [hs, confidence_level]
        · simp [hs, hm, confidence_level]
      · rw [if_neg hm']
        simp [confidence_level]

/-- Witness for C5 at `s' = 0 ≤ s = 1`, `n = 1`. -/
theorem C5_confidence_threshold_monotone_witness :
    ((0 : ℚ) ≤ 1) ∧
    ((compute_confidence 1 1 = "strong" ↔ (0.035 ≤ (1 : ℚ) ∧ 1 ≤ 1)) ∧
     (compute_confidence 1 1 = "medium" ↔ (0.02 ≤ (1 : ℚ) ∧ ¬(0.035 ≤ (1 : ℚ) ∧ 1 ≤ 1))) ∧
     (compute_confidence 1 1 = "weak" ↔ (1 : ℚ) < 0.02) ∧
     confidence_level (compute_confidence 0 1) ≤ confidence_level (compute_confidence 1 1)) :=
  ⟨by norm_num, C5_confidence_threshold_monotone 1 0 1 (by norm_num)⟩

/-! ## ask.py: fallback answers, defensive citation, error boundary

Python's leading underscores on private helpers are dropped in the Lean names
(`_llm_fallback_answer` becomes `llm_fallback_answer`, and so on). -/

/-- Lowercase-alphanumeric character class (`[a-z0-9]`, applied after `str.lower()`). -/
def isLowerAlnumC (c : Char) : Bool := ('a' ≤ c && c ≤ 'z') || ('0' ≤ c && c ≤ '9')

/-- Digit character class (`\d`). -/
def isDigitC (c : Char) : Bool := c.isDigit

/-- A retrieval hit, restricted to the fields the ask-path helpers below read. -/
structure Hit where
  section_id : Option String := none
  snippet : String := ""
deriving DecidableEq

/-- The orchestrator's terminal dictionary `{confidence, answer, hits}`
    (the optional table block is not read by the helpers embedded here). -/
structure AskResult where
  confidence : String
  answer : String
  hits : List Hit
deriving DecidableEq

/-- `_llm_fallback_answer(hits)` from `ask.py` (lines 210-218), verbatim:
    note the no-hit branch's `"low"` confidence label. -/
def llm_fallback_answer (hits : List Hit) : AskResult :=
  match hits with
  | [] => ⟨"low", "Insufficient Evidence.", []⟩
  | h :: _ =>
    let snippet := pyStrip h.snippet.data
    if !snippet.isEmpty then
      let answer :=
        if snippet.getLast? = some ']' then String.mk snippet
        else String.mk (snippet ++ " [1]".data)
      ⟨"medium", answer, hits.take 1⟩
    else ⟨"medium", "Insufficient Evidence in retrieved sources. [1]", hits.take 1⟩

/-- `_STOPWORDS` from `ask.py` (lines 367-371). -/
def STOPWORDS : List (List Char) :=
  ["what".data, "requirement".data,
   "section".data, "sections".data, "the".data, "a".data, "an".data, "for".data,
   "of".data, "is".data, "are".data,
   "in".data, "to".data, "and".data, "does".data, "say".data, "about".data]

/-- `_tokenize_relevance(text)` from `ask.py` (lines 378-383): the set of
    `[a-z0-9]+` tokens of the lowercased text of length at least 3 that are
    not stopwords (set modelled as a first-occurrence deduplicated list). -/
def tokenize_relevance (text : List Char) : List (List Char) :=
  uniqFirst ((runsBy isLowerAlnumC (pyLower text)).filter
    (fun t => !(STOPWORDS.contains t) && decide (3 ≤ t.length)))

/-- Word boundary (`\b`) holds before the current position given the previous character. -/
def boundaryBeforeOk : Option Char → Bool
  | none => true
  | some c => !(isWordC c)

/-- Word boundary (`\b`) holds between the consumed text and this remainder. -/
def boundaryAfterOk : List Char → Bool
  | [] => true
  | c :: _ => !(isWordC c)

/-- Parse `\d{3}\.\d{2}(?:\.\d{2})?\b` at the current position, mirroring the
    regex's greedy-optional-with-backtracking behaviour; returns the matched text. -/
def parseSecIdAt : List Char → Option (List Char)
  | d1 :: d2 :: d3 :: '.' :: d4 :: d5 :: rest =>
    if isDigitC d1 && isDigitC d2 && isDigitC d3 && isDigitC d4 && isDigitC d5 then
      match rest with
      | '.' :: d6 :: d7 :: rest2 =>
        if isDigitC d6 && isDigitC d7 && boundaryAfterOk rest2 then
          some [d1, d2, d3, '.', d4, d5, '.', d6, d7]
        else if boundaryAfterOk rest then some [d1, d2, d3, '.', d4, d5]
        else none
      | _ =>
        if boundaryAfterOk rest then some [d1, d2, d3, '.', d4, d5]
        else none
    else none
  | _ => none

/-- Left-to-right scan for `\b\d{3}\.\d{2}(?:\.\d{2})?\b` (first match). -/
def findSecPat : Option Char → List Char → Option (List Char)
  | _, [] => none
  | prev, c :: cs =>
    if boundaryBeforeOk prev then
      match parseSecIdAt (c :: cs) with
      | some m => some m
      | none => findSecPat (some c) cs
    else findSecPat (some c) cs

/-- `_extract_section_pattern(query)` from `ask.py` (lines 386-388). -/
def extract_section_pattern (query : List Char) : Option (List Char) :=
  findSecPat none query

/-- `_is_relevant_hit(query, hit)` from `ask.py` (lines 391-407): accept when the
    query's section pattern prefixes the hit's section id, or any relevance token
    of the query occurs as a substring of the lowercased snippet, or the token-set
    overlap between query and snippet has size at least 2. -/
def is_relevant_hit (query : String) (hit : Hit) : Bool :=
  let q := query.data
  let secMatch :=
    match extract_section_pattern q with
    | some pat => pat.isPrefixOf (hit.section_id.getD "").data
    | none => false
  secMatch ||
    (let q_tokens := tokenize_relevance q
     if q_tokens.isEmpty then false
     else
       let snippet := pyLower hit.snippet.data
       q_tokens.any (fun t => containsSubL t snippet)
         || decide (2 ≤ (q_tokens.filter (fun t => (tokenize_relevance snippet).contains t)).length))

/-- The fixed insufficient-evidence message of `_weak_response` (`ask.py` lines 411-414). -/
def weak_insufficient_msg : String :=
  "Insufficient Evidence. I couldn’t find a reliable answer in the provided NJDOT manuals for that question. Try rephrasing using a section number, exact term, or MP ID, or switch to Sources Only."

/-- `_weak_response(hits, query)` from `ask.py` (lines 410-424). -/
def weak_response (hits : List Hit) (query : String) : AskResult :=
  match hits with
  | [] => ⟨"weak", weak_insufficient_msg, []⟩
  | top :: _ =>
    if !(is_relevant_hit query top) then ⟨"weak", weak_insufficient_msg, []⟩
    else
      let snippet := pyStrip top.snippet.data
      if snippet.isEmpty then ⟨"weak", weak_insufficient_msg, []⟩
      else
        ⟨"weak",
          String.mk ("Closest match from NJDOT manuals: ".data ++ snippet ++ " [1]".data),
          hits.take 1⟩

/-- `ask_question(query, ...)` from `ask.py` (lines 1765-1784): the whole
    orchestration body `_ask_question_inner` runs inside `try/except Exception`,
    so it is modelled as an already-evaluated fallible computation; on any raised
    error the caller receives `weak_response([], query)`. -/
def ask_question (inner : Except String AskResult) (query : String) : AskResult :=
  match inner with
  | Except.ok r => r
  | Except.error _ => weak_response [] query

/-- Modelled from the spec: the relevance check as the claim words it —
    "token overlap ≥ 2 or shared section prefix" — for comparison with the
    source's `_is_relevant_hit` (which also accepts a single substring token hit). -/
def spec_relevance_check (query : String) (hit : Hit) : Bool :=
  (match extract_section_pattern query.data with
   | some pat => pat.isPrefixOf (hit.section_id.getD "").data
   | none => false) ||
  decide (2 ≤ ((tokenize_relevance query.data).filter
    (fun t => (tokenize_relevance (pyLower hit.snippet.data)).contains t)).length)

/-! ## ask.py: numeric-hallucination guard (lines 1738-1743) -/

/-- The integers of the generated answer: `re.findall(r"\b\d+\b", answer)` —
    maximal word-character runs consisting solely of digits. -/
def extract_answer_ints (answer : List Char) : List (List Char) :=
  (runsBy isWordC answer).filter (fun r => r.all isDigitC)

/-- The phrase occurs with word boundaries on both sides at this position. -/
def phraseAt (ph : List Char) (l : List Char) : Bool :=
  ph.isPrefixOf l && boundaryAfterOk (l.drop ph.length)

/-- Scan for a word-bounded literal phrase (`\bphrase\b`). -/
def hasWordPhraseAux (ph : List Char) : Option Char → List Char → Bool
  | _, [] => false
  | prev, c :: cs =>
    (boundaryBeforeOk prev && phraseAt ph (c :: cs)) || hasWordPhraseAux ph (some c) cs

/-- `re.search(r"\bphrase\b", s)` for a literal phrase. -/
def hasWordPhrase (ph : List Char) (s : List Char) : Bool := hasWordPhraseAux ph none s

/-- `\bwithin \d+ days\b` matches at the current position. -/
def withinDaysAt (l : List Char) : Bool :=
  if "within ".data.isPrefixOf l then
    let rest := l.drop 7
    let ds := rest.takeWhile isDigitC
    let rest2 := rest.drop ds.length
    !ds.isEmpty && " days".data.isPrefixOf rest2 && boundaryAfterOk (rest2.drop 5)
  else false

/-- Scan for `\bwithin \d+ days\b`. -/
def hasWithinDays : Option Char → List Char → Bool
  | _, [] => false
  | prev, c :: cs => (boundaryBeforeOk prev && withinDaysAt (c :: cs)) || hasWithinDays (some c) cs

/-- The guard's trigger `re.search(r"\bhow many days\b|\bwithin \d+ days\b|\bdays\b", q.lower())`
    (`ask.py` line 1739). -/
def time_guard_trigger (q : List Char) : Bool :=
  let ql := pyLower q
  hasWordPhrase "how many days".data ql || hasWithinDays none ql
    || hasWordPhrase "days".data ql

/-- The post-generation numeric-hallucination guard (`ask.py` lines 1738-1743):
    for a day-phrase query, collect the integers of the generated answer; if there
    is at least one and none of them occurs as a substring of the lowercased source
    block, return the deterministic fallback (`some ...`); otherwise the answer is
    kept and the orchestrator continues (`none`). -/
def numeric_guard_step (q answer sources_text : String) (hits : List Hit) :
    Option AskResult :=
  if time_guard_trigger q.data then
    let src_blob := pyLower sources_text.data
    let nums := extract_answer_ints answer.data
    if !nums.isEmpty && !(nums.any (fun n => containsSubL n src_blob)) then
      some (llm_fallback_answer hits)
    else none
  else none

lemma not_any_eq_all_not (l : List (List Char)) (p : List Char → Bool) :
    (!(l.any p)) = l.all (fun a => !(p a)) := by
  induction l with
  | nil => rfl
  | cons a as ih => simp [List.any_cons, List.all_cons, ih]

/-- Claim C1 (amended): the numeric-hallucination guard discards the generated
    answer — returning the deterministic one-snippet fallback — exactly when the
    query matches the day-phrase trigger, the answer contains at least one
    integer, and every integer of the answer is absent (as a substring) from the
    lowercased source block; an answer mixing present and absent integers is kept,
    and non-day queries are never guarded. -/
theorem C1_numeric_guard_characterisation (q answer src : String) (hits : List Hit) :
    numeric_guard_step q answer src hits
      = (if time_guard_trigger q.data
            && !(extract_answer_ints answer.data).isEmpty
            && (extract_answer_ints answer.data).all
                (fun n => !(containsSubL n (pyLower src.data)))
         then some (llm_fallback_answer hits) else none) := by
  unfold numeric_guard_step
  by_cases ht : time_guard_trigger q.data
  · rw [if_pos ht]
    simp only [ht, Bool.true_and]
    rw [not_any_eq_all_not]
  · rw [if_neg ht]
    have ht' : time_guard_trigger q.data = false := by
      cases h : time_guard_trigger q.data
      · rfl
      · exact absurd h ht
    simp [ht']

/-- Concrete day-count query, generated answer and source block for refuting C1 as stated. -/
def c1_query : String := "within how many days must the prime contractor pay"

/-- Generated answer containing the integers 30 and 5. -/
def c1_answer : String := "Payment is due within 30 days and interest accrues after 5 days."

/-- Source block containing 5 but not 30. -/
def c1_src : String := "[SOURCE 1] Section: Pages: 4-4 Excerpt: interest accrues after five, that is 5, days of receipt"

/-- Counterexample to C1 as stated: the query has explicit time-limit phrasing and
    the generated answer contains the integer 30, which is absent from the source
    block text, yet the guard keeps the generated answer (it only discards when
    every integer is absent — here 5 is present). -/
theorem C1_counterexample :
    time_guard_trigger c1_query.data = true ∧
    (extract_answer_ints c1_answer.data).contains "30".data = true ∧
    containsSubL "30".data (pyLower c1_src.data) = false ∧
    numeric_guard_step c1_query c1_answer c1_src [⟨none, "snippet"⟩] = none := by
  refine ⟨by decide, by decide, by decide, ?_⟩
  decide

/-- Claim C2: the generation-error fallback. The error path of
    `_ask_question_inner` returns `_llm_fallback_answer(hits)`; with at least one
    hit its confidence is `"medium"`, but with no hits it is the label `"low"`,
    which is outside the declared `AskResult` confidence vocabulary
    `{strong, medium, weak}` (cf. `AskResponse.confidence` in `schemas/ask.py`). -/
theorem C2_llm_fallback_confidence :
    (llm_fallback_answer []).confidence = "low" ∧
    ((["strong", "medium", "weak"] : List String).contains "low") = false ∧
    (∀ (h : Hit) (rest : List Hit),
      (llm_fallback_answer (h :: rest)).confidence = "medium") := by
  refine ⟨rfl, by decide, ?_⟩
  intro h rest
  unfold llm_fallback_answer
  by_cases hs : (pyStrip h.snippet.data).isEmpty
  · simp [hs]
  · simp [hs]

/-- Claim C3: the ask-path error boundary. Any error raised inside the
    orchestration is caught by `ask_question` and the caller receives the normal
    `weak_response([], query)` result — confidence `"weak"`, the fixed
    insufficient-evidence answer, and no hits — while a successful inner result
    passes through unchanged; no error propagates. -/
theorem C3_ask_error_containment (e : String) (q : String) :
    ask_question (Except.error e) q = weak_response [] q ∧
    (ask_question (Except.error e) q).confidence = "weak" ∧
    (ask_question (Except.error e) q).answer = weak_insufficient_msg ∧
    (ask_question (Except.error e) q).hits = [] ∧
    (∀ r : AskResult, ask_question (Except.ok r) q = r) :=
  ⟨rfl, rfl, rfl, rfl, fun _ => rfl⟩

/-- Claim C4 (amended): `_weak_response` always reports `"weak"` confidence and
    cites at most the single best hit; a snippet is surfaced only when the top
    hit passes the source's `_is_relevant_hit` check (section-prefix match, a
    single query token occurring as a substring of the snippet, or token-set
    overlap of at least 2) and has a non-empty stripped snippet. -/
theorem C4_weak_defensive_citation (query : String) (hits : List Hit) :
    (weak_response hits query).confidence = "weak" ∧
    (weak_response hits query).hits.length ≤ 1 ∧
    ((weak_response hits query).hits = [] ∨
      (∃ top rest, hits = top :: rest ∧ (weak_response hits query).hits = [top] ∧
        is_relevant_hit query top = true ∧ (pyStrip top.snippet.data).isEmpty = false)) := by
  match hits with
  | [] => exact ⟨rfl, by simp [weak_response], Or.inl rfl⟩
  | top :: rest =>
    unfold weak_response
    by_cases hr : is_relevant_hit query top
    · by_cases hs : (pyStrip top.snippet.data).isEmpty
      · refine ⟨?_, ?_, Or.inl ?_⟩ <;> simp [hr, hs]
      · refine ⟨?_, ?_, Or.inr ⟨top, rest, rfl, ?_, ?_, ?_⟩⟩ <;>
          simp [hr, hs]
    · have hr' : is_relevant_hit query top = false := by
        cases h : is_relevant_hit query top
        · rfl
        · exact absurd h hr
      refine ⟨?_, ?_, Or.inl ?_⟩ <;> simp [hr']

/-- Concrete unrelated-looking hit for refuting C4 as stated. -/
def c4_hit : Hit := ⟨none, "use concrete mix"⟩

/-- Counterexample to C4 as stated: for the query "concrete" the top hit shares
    no section prefix and has token overlap only 1 with the query, so the claim's
    relevance check fails, yet `_weak_response` surfaces its snippet (the source
    accepts a single query token occurring as a substring of the snippet). -/
theorem C4_counterexample :
    spec_relevance_check "concrete" c4_hit = false ∧
    ((tokenize_relevance "concrete".data).filter
      (fun t => (tokenize_relevance (pyLower c4_hit.snippet.data)).contains t)).length = 1 ∧
    (weak_response [c4_hit] "concrete").hits = [c4_hit] ∧
    (weak_response [c4_hit] "concrete").answer
      = "Closest match from NJDOT manuals: use concrete mix [1]" := by
  refine ⟨by decide, by decide, ?_, ?_⟩ <;> decide

/-! ## chunking.py: page segmentation and document chunking

The two structural-marker regexes are multi-line patterns anchored at line
starts, so they are embedded as per-line scanners over the `\n`-split text. -/

/-- Split a character list into lines (`str.splitlines` on this `\n`-separated corpus). -/
def splitLinesL (l : List Char) : List (List Char) := l.splitOn '\n'

/-- Join lines with `\n` (Python `"\n".join`). -/
def joinL : List (List Char) → List Char
  | [] => []
  | [x] => x
  | x :: y :: rest => x ++ '\n' :: joinL (y :: rest)

/-- Parse `\d{3}\.\d{2}(?:\.\d{2})?` greedily at the current position, returning
    the matched id and the remainder (backtracking from the optional group to the
    short form can never succeed afterwards, since the short form leaves a `.`). -/
def parseSubsecId : List Char → Option (List Char × List Char)
  | d1 :: d2 :: d3 :: '.' :: d4 :: d5 :: rest =>
    if isDigitC d1 && isDigitC d2 && isDigitC d3 && isDigitC d4 && isDigitC d5 then
      match rest with
      | '.' :: d6 :: d7 :: rest2 =>
        if isDigitC d6 && isDigitC d7 then
          some ([d1, d2, d3, '.', d4, d5, '.', d6, d7], rest2)
        else some ([d1, d2, d3, '.', d4, d5], rest)
      | _ => some ([d1, d2, d3, '.', d4, d5], rest)
    else none
  | _ => none

/-- `SUBSECTION_HEADER_RE` (`chunking.py` lines 26-28) applied to one line:
    `^\s*(\d{3}\.\d{2}(?:\.\d{2})?)\s{2,}([A-Z][^\n]{2,})\s*$`; returns the section id. -/
def subsectionHeaderId? (line : List Char) : Option (List Char) :=
  match parseSubsecId (line.dropWhile isWsC) with
  | none => none
  | some (id, rest) =>
    let ws := rest.takeWhile isWsC
    if 2 ≤ ws.length then
      match rest.drop ws.length with
      | c :: tail => if 'A' ≤ c && c ≤ 'Z' && decide (2 ≤ tail.length) then some id else none
      | [] => none
    else none

/-- `SECTION_RE` (`chunking.py` line 12) applied to one line:
    `(?mi)^\s*SECTION\s+(\d{3})\b`; returns the three-digit id. -/
def sectionHeaderId? (line : List Char) : Option (List Char) :=
  let l := line.dropWhile isWsC
  if "section".data.isPrefixOf (pyLower (l.take 7)) then
    let rest := l.drop 7
    let ws := rest.takeWhile isWsC
    if 1 ≤ ws.length then
      match rest.drop ws.length with
      | d1 :: d2 :: d3 :: tail =>
        if isDigitC d1 && isDigitC d2 && isDigitC d3 && boundaryAfterOk tail then
          some [d1, d2, d3]
        else none
      | _ => none
    else none
  else none

/-- `(?i)\bSECTION\s+<marker>\b` matches at the current position. -/
def sectionRefAt (marker : List Char) (l : List Char) : Bool :=
  if "section".data.isPrefixOf (pyLower (l.take 7)) then
    let rest := l.drop 7
    let ws := rest.takeWhile isWsC
    let afterWs := rest.drop ws.length
    decide (1 ≤ ws.length) && marker.isPrefixOf afterWs
      && boundaryAfterOk (afterWs.drop marker.length)
  else false

/-- Scan one line for `(?i)\bSECTION\s+<marker>\b`. -/
def hasSectionRefAux (marker : List Char) : Option Char → List Char → Bool
  | _, [] => false
  | prev, c :: cs =>
    (boundaryBeforeOk prev && sectionRefAt marker (c :: cs))
      || hasSectionRefAux marker (some c) cs

/-- Search a line for a `SECTION <marker>` reference. -/
def hasSectionRef (marker : List Char) (line : List Char) : Bool :=
  hasSectionRefAux marker none line

/-- `_section_heading_line(text, marker)` from `chunking.py` (lines 47-57). -/
def section_heading_line (text marker : List Char) : Option (List Char) :=
  if text.isEmpty then none
  else
    match (splitLinesL text).find? (fun ln => hasSectionRef marker ln) with
    | some ln => some ((pyStrip ln).take 200)
    | none => some (("SECTION ".data ++ marker).take 200)

/-- Lines before the first marker line, and the remainder starting at that line. -/
def takeUntilMarker (pred : List Char → Bool) :
    List (List Char) → List (List Char) × List (List Char)
  | [] => ([], [])
  | ln :: rest =>
    if pred ln then ([], ln :: rest)
    else
      let (pre, rest2) := takeUntilMarker pred rest
      (ln :: pre, rest2)

lemma takeUntilMarker_snd_length_le (pred : List Char → Bool) (l : List (List Char)) :
    (takeUntilMarker pred l).2.length ≤ l.length := by
  induction l with
  | nil => simp [takeUntilMarker]
  | cons ln rest ih =>
    by_cases h : pred ln
    · simp [takeUntilMarker, h]
    · simp only [takeUntilMarker, h, if_false]
      calc (takeUntilMarker pred rest).2.length ≤ rest.length := ih
        _ ≤ (ln :: rest).length := by simp

/-- Worker for `groupSegments`: accumulate the current marker-headed group
    (reversed) and start a new group at each marker line. -/
def groupSegsAux (pred : List Char → Bool) (cur : List (List Char)) :
    List (List Char) → List (List (List Char))
  | [] => [cur.reverse]
  | ln :: rest =>
    if pred ln then cur.reverse :: groupSegsAux pred [ln] rest
    else groupSegsAux pred (ln :: cur) rest

/-- Group the remaining lines into marker-headed slices (`text[start:next_start]`);
    the input starts with a marker line. -/
def groupSegments (pred : List Char → Bool) (l : List (List Char)) :
    List (List (List Char)) :=
  match l with
  | [] => []
  | ln :: rest => groupSegsAux pred [ln] rest

/-- A page segment (`chunking.py` lines 40-44). -/
structure PageSegment where
  section_id : Option (List Char)
  heading : Option (List Char)
  text : List Char
deriving DecidableEq

/-- Build the segment list for the strong-subsection-header branch
    (`chunking.py` lines 75-97). -/
def buildSubsectionSegments (preamble : List Char) :
    List (List (List Char)) → ℕ → List PageSegment
  | [], _ => []
  | g :: gs, idx =>
    let headerLine := g.headD []
    let segText0 := pyStrip (joinL g)
    let segText :=
      if idx == 0 && decide (40 ≤ preamble.length) then preamble ++ '\n' :: segText0
      else segText0
    let secId := (subsectionHeaderId? headerLine).getD []
    let heading := (pyStrip headerLine).take 200
    ⟨some secId, some heading, segText⟩ :: buildSubsectionSegments preamble gs (idx + 1)

/-- Build the segment list for the `SECTION` fallback branch
    (`chunking.py` lines 102-121). -/
def buildSectionSegments (preamble : List Char) :
    List (List (List Char)) → ℕ → List PageSegment
  | [], _ => []
  | g :: gs, idx =>
    let headerLine := g.headD []
    let segText0 := pyStrip (joinL g)
    let segText :=
      if idx == 0 && decide (40 ≤ preamble.length) then preamble ++ '\n' :: segText0
      else segText0
    let secId := (sectionHeaderId? headerLine).getD []
    let heading := section_heading_line segText secId
    ⟨some secId, heading, segText⟩ :: buildSectionSegments preamble gs (idx + 1)

/-- `split_page_into_segments(text)` from `chunking.py` (lines 60-126): priority
    is strong subsection headers, then `SECTION` headers, else one segment with
    no section id; empty input yields a single empty-text segment. -/
def split_page_into_segments (text : List Char) : List PageSegment :=
  if text.isEmpty then [⟨none, none, []⟩]
  else
    let lines := splitLinesL text
    if lines.any (fun ln => (subsectionHeaderId? ln).isSome) then
      let pr := takeUntilMarker (fun ln => (subsectionHeaderId? ln).isSome) lines
      let preamble := pyStrip (joinL pr.1)
      let groups := groupSegments (fun ln => (subsectionHeaderId? ln).isSome) pr.2
      buildSubsectionSegments preamble groups 0
    else if lines.any (fun ln => (sectionHeaderId? ln).isSome) then
      let pr := takeUntilMarker (fun ln => (sectionHeaderId? ln).isSome) lines
      let preamble := pyStrip (joinL pr.1)
      let groups := groupSegments (fun ln => (sectionHeaderId? ln).isSome) pr.2
      buildSectionSegments preamble groups 0
    else [⟨none, none, pyStrip text⟩]

/-- A flushed chunk (`chunking.py` lines 31-37). -/
structure Chunk where
  section_id : Option (List Char)
  heading : Option (List Char)
  page_start : ℕ
  page_end : ℕ
  text : List Char
deriving DecidableEq

/-- The accumulating state of `chunk_document_pages`. -/
structure ChunkAcc where
  chunks : List Chunk
  cur_section : Option (List Char)
  cur_heading : Option (List Char)
  cur_start : Option ℕ
  cur_end : Option ℕ
  cur_buf : List (List Char)
deriving DecidableEq

/-- `flush()` from `chunk_document_pages` (`chunking.py` lines 142-149): emit the
    accumulated chunk unless the state is unset or the joined text strips to empty. -/
def flushAcc (st : ChunkAcc) : ChunkAcc :=
  match st.cur_start, st.cur_end with
  | some s, some e =>
    if st.cur_buf.isEmpty then st
    else
      let text := pyStrip (joinL st.cur_buf)
      let chunks :=
        if text.isEmpty then st.chunks
        else st.chunks ++ [⟨st.cur_section, st.cur_heading, s, e, text⟩]
      ⟨chunks, none, none, none, none, []⟩
  | _, _ => st

/-- One segment step of `chunk_document_pages`'s inner loop (`chunking.py` lines 154-174). -/
def stepSeg (page_no : ℕ) (st : ChunkAcc) (seg : PageSegment) : ChunkAcc :=
  let is_new_marker := seg.section_id.isSome && decide (seg.section_id ≠ st.cur_section)
  let st1 :=
    if st.cur_start.isNone then
      { st with cur_start := some page_no, cur_section := seg.section_id,
                cur_heading := seg.heading }
    else if is_new_marker then
      let st' := flushAcc st
      { st' with cur_start := some page_no, cur_section := seg.section_id,
                 cur_heading := seg.heading }
    else if st.cur_section.isNone && seg.section_id.isSome then
      { st with cur_section := seg.section_id, cur_heading := seg.heading }
    else st
  { st1 with cur_end := some page_no, cur_buf := st1.cur_buf ++ [seg.text] }

/-- `chunk_document_pages(pages)` from `chunking.py` (lines 129-177). -/
def chunk_document_pages (pages : List (ℕ × String)) : List Chunk :=
  let final := pages.foldl
    (fun st p => (split_page_into_segments p.2.data).foldl (stepSeg p.1) st)
    ⟨[], none, none, none, none, []⟩
  (flushAcc final).chunks

lemma pyStrip_of_all_ws (l : List Char) (h : ∀ c ∈ l, isWsC c = true) :
    pyStrip l = [] := by
  have hdrop : l.dropWhile isWsC = [] := by
    induction l with
    | nil => rfl
    | cons c cs ih =>
      rw [List.dropWhile_cons]
      rw [h c (List.mem_cons_self _ _)]
      exact ih (fun x hx => h x (List.mem_cons_of_mem _ hx))
  unfold pyStrip pyStripRight
  rw [hdrop]
  rfl

lemma joinL_all_ws (bs : List (List Char)) (h : ∀ b ∈ bs, b = []) :
    ∀ c ∈ joinL bs, isWsC c = true := by
  induction bs with
  | nil => intro c hc; simp [joinL] at hc
  | cons x xs ih =>
    match xs with
    | [] =>
      intro c hc
      rw [joinL] at hc
      rw [h x (List.mem_cons_self _ _)] at hc
      simp at hc
    | y :: rest =>
      intro c hc
      rw [joinL] at hc
      rw [h x (List.mem_cons_self _ _)] at hc
      simp only [List.nil_append, List.mem_cons] at hc
      rcases hc with hc | hc
      · subst hc; rfl
      · exact ih (fun b hb => h b (List.mem_cons_of_mem _ hb)) c hc

lemma flushAcc_chunks_empty (st : ChunkAcc) (h1 : st.chunks = [])
    (h2 : ∀ b ∈ st.cur_buf, b = []) : (flushAcc st).chunks = [] := by
  unfold flushAcc
  match hs : st.cur_start, he : st.cur_end with
  | some s, some e =>
    by_cases hb : st.cur_buf.isEmpty
    · simp [hb, h1]
    · have htext : pyStrip (joinL st.cur_buf) = [] :=
        pyStrip_of_all_ws _ (joinL_all_ws _ h2)
      simp [hb, htext, h1]
  | some _, none => simpa using h1
  | none, _ => simpa using h1

lemma stepSeg_empty_seg (page : ℕ) (st : ChunkAcc)
    (h1 : st.chunks = []) (h2 : ∀ b ∈ st.cur_buf, b = []) (h3 : st.cur_section = none) :
    (stepSeg page st ⟨none, none, []⟩).chunks = [] ∧
    (∀ b ∈ (stepSeg page st ⟨none, none, []⟩).cur_buf, b = []) ∧
    (stepSeg page st ⟨none, none, []⟩).cur_section = none := by
  obtain ⟨chunks, csec, chead, cstart, cend, cbuf⟩ := st
  subst h1
  subst h3
  have hbuf : ∀ b ∈ cbuf ++ [([] : List Char)], b = ([] : List Char) := by
    intro b hb
    rcases List.mem_append.mp hb with hb | hb
    · exact h2 b hb
    · simpa using hb
  cases cstart with
  | none => exact ⟨rfl, hbuf, rfl⟩
  | some s => exact ⟨rfl, hbuf, rfl⟩

lemma chunk_fold_empty (pages : List (ℕ × String)) (h : ∀ p ∈ pages, p.2 = "")
    (st : ChunkAcc) (h1 : st.chunks = []) (h2 : ∀ b ∈ st.cur_buf, b = [])
    (h3 : st.cur_section = none) :
    (pages.foldl
      (fun st p => (split_page_into_segments p.2.data).foldl (stepSeg p.1) st) st).chunks = [] ∧
    (∀ b ∈ (pages.foldl
      (fun st p => (split_page_into_segments p.2.data).foldl (stepSeg p.1) st) st).cur_buf, b = []) ∧
    (pages.foldl
      (fun st p => (split_page_into_segments p.2.data).foldl (stepSeg p.1) st) st).cur_section = none := by
  induction pages generalizing st with
  | nil => exact ⟨h1, h2, h3⟩
  | cons p ps ih =>
    have hp : p.2 = "" := h p (List.mem_cons_self _ _)
    have hsplit : split_page_into_segments p.2.data = [⟨none, none, []⟩] := by
      rw [hp]; decide
    rw [List.foldl_cons, hsplit, List.foldl_cons, List.foldl_nil]
    obtain ⟨s1, s2, s3⟩ := stepSeg_empty_seg p.1 st h1 h2 h3
    exact ih (fun q hq => h q (List.mem_cons_of_mem _ hq)) _ s1 s2 s3

/-- Claim C9 (amended): the page splitter handles empty page text by yielding a
    single segment with no section id and empty text, and the (total) chunker
    never fails; however `chunk_document_pages` drops empty-text chunks at flush,
    so a document whose pages are all empty produces no chunks at all — the empty
    page is not represented by an empty-text chunk. -/
theorem C9_segmenter_empty_pages (pages : List (ℕ × String))
    (h : ∀ p ∈ pages, p.2 = "") :
    split_page_into_segments "".data = [⟨none, none, []⟩] ∧
    chunk_document_pages pages = [] := by
  constructor
  · decide
  · unfold chunk_document_pages
    obtain ⟨f1, f2, _⟩ := chunk_fold_empty pages h ⟨[], none, none, none, none, []⟩
      rfl (by simp) rfl
    exact flushAcc_chunks_empty _ f1 f2

/-- Counterexample to C9 as stated: a document consisting of one empty page
    produces no chunk at all — the promised single empty-text chunk covering the
    page is discarded by `flush`'s `if text:` guard. -/
theorem C9_counterexample : chunk_document_pages [(1, "")] = [] := by decide

/-- Witness for C9 at the one-empty-page document. -/
theorem C9_segmenter_empty_pages_witness :
    (([((1 : ℕ), ("" : String))]).all (fun p => p.2 == "")) = true ∧
    (split_page_into_segments "".data = [⟨none, none, []⟩] ∧
      chunk_document_pages [((1 : ℕ), ("" : String))] = []) :=
  ⟨by decide, C9_segmenter_empty_pages [((1 : ℕ), ("" : String))] (by decide)⟩

/-! ## chunk_ingestion.py: classification, table extraction, rebuild -/

/-- Python `str.upper()` (ASCII corpus). -/
def pyUpper (l : List Char) : List Char := l.map Char.toUpper

/-- ASCII letter. -/
def isLetterC (c : Char) : Bool := ('A' ≤ c && c ≤ 'Z') || ('a' ≤ c && c ≤ 'z')

/-- `[A-Za-z0-9]`. -/
def isAlnumC (c : Char) : Bool := isLetterC c || isDigitC c

/-- Parse `\b\d{3}\.\d{2}(?:\.\d{2})?\b` at the current position and return the
    remainder after the match (greedy optional group with the regex's backtracking). -/
def parseSecIdAtRest : List Char → Option (List Char)
  | d1 :: d2 :: d3 :: '.' :: d4 :: d5 :: rest =>
    if isDigitC d1 && isDigitC d2 && isDigitC d3 && isDigitC d4 && isDigitC d5 then
      match rest with
      | '.' :: d6 :: d7 :: rest2 =>
        if isDigitC d6 && isDigitC d7 && boundaryAfterOk rest2 then some rest2
        else if boundaryAfterOk rest then some rest
        else none
      | _ => if boundaryAfterOk rest then some rest else none
    else none
  | _ => none

/-- Remainder after the first run of two or more dots (`\.{2,}`, consumed greedily). -/
def afterDotRun : List Char → Option (List Char)
  | [] => none
  | '.' :: '.' :: rest => some (rest.dropWhile (fun c => c = '.'))
  | _ :: rest => afterDotRun rest

/-- Remainder after the first word-bounded digit run of length 1-4 (`\b\d{1,4}\b`). -/
def findBoundedNumRest (prev : Option Char) : List Char → Option (List Char)
  | [] => none
  | c :: cs =>
    if boundaryBeforeOk prev && isDigitC c then
      let run := (c :: cs).takeWhile isDigitC
      let rest := (c :: cs).drop run.length
      if decide (run.length ≤ 4) && boundaryAfterOk rest then some rest
      else findBoundedNumRest (some c) cs
    else findBoundedNumRest (some c) cs

/-- One leftmost match of the TOC-line regex
    `\b\d{3}\.\d{2}(?:\.\d{2})?\b.*?\.{2,}.*?\b\d{1,4}\b` within a line
    (`.` does not cross newlines, so the pattern is line-local);
    returns the remainder after the match end. -/
def tocFindMatchRest : Option Char → List Char → Option (List Char)
  | _, [] => none
  | prev, c :: cs =>
    (if boundaryBeforeOk prev then
      match parseSecIdAtRest (c :: cs) with
      | some rest =>
        match afterDotRun rest with
        | some rest2 => findBoundedNumRest (some '.') rest2
        | none => none
      | none => none
     else none).orElse
    (fun _ => tocFindMatchRest (some c) cs)

/-- Count non-overlapping TOC-line matches in one line (`re.findall` restarts
    after each match end; after a match the previous character is a digit, so
    any digit serves as the carried previous character). -/
def tocCountLineAux : ℕ → Option Char → List Char → ℕ
  | 0, _, _ => 0
  | fuel + 1, prev, l =>
    match tocFindMatchRest prev l with
    | some rest => 1 + tocCountLineAux fuel (some '0') rest
    | none => 0

/-- Matches of the TOC-line regex in one line. -/
def tocCountLine (line : List Char) : ℕ := tocCountLineAux (line.length + 1) none line

/-- `len(toc_line_re.findall(t))`: matches cannot span lines, so the count is the
    sum of the per-line counts. -/
def tocFindallCount (t : List Char) : ℕ := ((splitLinesL t).map tocCountLine).sum

/-- `looks_like_toc_block(text)` from `chunk_ingestion.py` (lines 23-33). -/
def looks_like_toc_block (t : List Char) : Bool :=
  if containsSubL "TABLE OF CONTENTS".data (pyUpper t) then true
  else if (splitLinesL t).any (fun ln => (tocFindMatchRest none ln).isSome) then true
  else if t.length < 300 then false
  else decide (6 ≤ tocFindallCount t)

/-- `classify_chunk(section_id, text)` from `chunk_ingestion.py` (lines 36-41). -/
def classify_chunk (section_id : Option (List Char)) (text : List Char) : String :=
  if looks_like_toc_block text then "toc"
  else
    match section_id with
    | none => "front_matter"
    | some _ => "content"

/-- `_EQUATION_SYMBOLS` (`chunk_ingestion.py` line 18). -/
def EQUATION_SYMBOLS : List Char := ['=', '≤', '≥', '≠', '±', '×', '÷', '∑', '√', '^', '_']

/-- `_EQUATION_OPS_RE` character class `[=<>±×÷∑√^_]` (`chunk_ingestion.py` line 19). -/
def EQUATION_OPS : List Char := ['=', '<', '>', '±', '×', '÷', '∑', '√', '^', '_']

/-- A word run matching `\b[A-Za-z]{1,4}\d{0,2}\b`: a maximal word-character run
    of one to four letters followed by zero to two digits. -/
def eqVarShape (r : List Char) : Bool :=
  let letters := r.takeWhile isLetterC
  let rest := r.drop letters.length
  decide (1 ≤ letters.length) && decide (letters.length ≤ 4)
    && rest.all isDigitC && decide (rest.length ≤ 2)

/-- `_EQUATION_FUNC_RE` keyword set. -/
def EQUATION_FUNCS : List (List Char) :=
  ["log".data, "ln".data, "sin".data, "cos".data, "tan".data]

/-- `\b[A-Za-z0-9]+\s*/\s*[A-Za-z0-9]+\b` matches at the current position. -/
def fractionAt (l : List Char) : Bool :=
  let run := l.takeWhile isAlnumC
  if run.isEmpty then false
  else
    let rest := l.drop run.length
    match rest.dropWhile isWsC with
    | '/' :: tail =>
      let tail2 := tail.dropWhile isWsC
      let run2 := tail2.takeWhile isAlnumC
      !run2.isEmpty && boundaryAfterOk (tail2.drop run2.length)
    | _ => false

/-- Scan for `_FRACTION_RE`. -/
def hasFractionAux : Option Char → List Char → Bool
  | _, [] => false
  | prev, c :: cs => (boundaryBeforeOk prev && fractionAt (c :: cs)) || hasFractionAux (some c) cs

/-- The per-line score of `equation_score` (`chunk_ingestion.py` lines 59-77),
    for an already stripped, length-qualified line. -/
def equation_line_score (line : List Char) : ℚ :=
  let s1 : ℚ := if 1 ≤ (line.filter (fun ch => EQUATION_SYMBOLS.contains ch)).length then 0.25 else 0
  let s2 : ℚ := if line.any (fun ch => EQUATION_OPS.contains ch) then 0.2 else 0
  let s3 : ℚ := if 2 ≤ ((runsBy isWordC line).filter eqVarShape).length then 0.2 else 0
  let s4 : ℚ := if (runsBy isWordC line).any (fun r => EQUATION_FUNCS.contains (pyLower r)) then 0.1 else 0
  let s5 : ℚ := if hasFractionAux none line then 0.1 else 0
  let s6 : ℚ := if 4 ≤ (line.filter isDigitC).length then 0.1 else 0
  let nonLetters := (line.filter (fun ch => !(isLetterC ch) && !(isWsC ch))).length
  let s7 : ℚ := if (0.3 : ℚ) < (nonLetters : ℚ) / (line.length : ℚ) then 0.1 else 0
  s1 + s2 + s3 + s4 + s5 + s6 + s7

/-- `equation_score(text)` from `chunk_ingestion.py` (lines 44-82): the best
    per-line score over stripped lines of length 8-200, capped at 1. -/
def equation_score (text : List Char) : ℚ :=
  if text.isEmpty then 0
  else
    let scores := (splitLinesL text).map (fun raw =>
      let line := pyStrip raw
      if line.isEmpty then 0
      else if line.length < 8 || 200 < line.length then 0
      else equation_line_score line)
    min (scores.foldl max 0) 1

/-- `_TABLE_HEADER_RE` (`chunk_ingestion.py` line 14) on one line:
    `^\s*(?:table|tab\.)\s+\d{3}\.\d{2}`, case-insensitive. -/
def tableHeaderLine (ln : List Char) : Bool :=
  let l := ln.dropWhile isWsC
  let low := pyLower l
  let afterKw : Option (List Char) :=
    if "table".data.isPrefixOf low then some (l.drop 5)
    else if "tab.".data.isPrefixOf low then some (l.drop 4)
    else none
  match afterKw with
  | none => false
  | some rest =>
    let ws := rest.takeWhile isWsC
    decide (1 ≤ ws.length) &&
      (match rest.drop ws.length with
       | d1 :: d2 :: d3 :: '.' :: d4 :: d5 :: _ =>
         isDigitC d1 && isDigitC d2 && isDigitC d3 && isDigitC d4 && isDigitC d5
       | _ => false)

/-- `_SECTION_HEADER_RE` (`chunk_ingestion.py` line 15) on one line: `^\s*\d{3}\.\d{2}\b`. -/
def ingSectionHeaderLine (ln : List Char) : Bool :=
  match ln.dropWhile isWsC with
  | d1 :: d2 :: d3 :: '.' :: d4 :: d5 :: rest =>
    isDigitC d1 && isDigitC d2 && isDigitC d3 && isDigitC d4 && isDigitC d5
      && boundaryAfterOk rest
  | _ => false

/-- A raw table block (`chunk_ingestion.py` lines 123-127). -/
structure TableBlock where
  lines : List (List Char)
  start_line : ℕ
  end_line : ℕ
deriving DecidableEq

/-- `flush(end_i)` inside `extract_table_blocks` (`chunk_ingestion.py` lines 137-144):
    keep a buffered block only if it has at least five non-blank lines. -/
def tbFlush (blocks : List TableBlock) (buf : List (List Char))
    (bufStart : Option ℕ) (endI : ℕ) : List TableBlock :=
  match bufStart with
  | some s =>
    if buf.isEmpty then blocks
    else if 5 ≤ (buf.filter (fun ln => !(pyStrip ln).isEmpty)).length then
      blocks ++ [⟨buf, s, endI⟩]
    else blocks
  | none => blocks

/-- The line loop of `extract_table_blocks` (`chunk_ingestion.py` lines 146-166);
    the buffer is empty whenever no block is open. -/
def extractTBAux : List (List Char) → ℕ → List TableBlock → List (List Char) →
    Option ℕ → List TableBlock
  | [], i, blocks, buf, bufStart => tbFlush blocks buf bufStart (i - 1)
  | ln :: rest, i, blocks, buf, bufStart =>
    if tableHeaderLine ln then
      let blocks' :=
        match bufStart with
        | some _ => tbFlush blocks buf bufStart (i - 1)
        | none => blocks
      extractTBAux rest (i + 1) blocks' [ln] (some i)
    else if bufStart.isSome then
      if ingSectionHeaderLine ln then
        let blocks' := tbFlush blocks buf bufStart (i - 1)
        extractTBAux rest (i + 1) blocks' [] none
      else extractTBAux rest (i + 1) blocks (buf ++ [ln]) bufStart
    else extractTBAux rest (i + 1) blocks buf bufStart

/-- `extract_table_blocks(page_text)` from `chunk_ingestion.py` (lines 130-168). -/
def extract_table_blocks (page_text : List Char) : List TableBlock :=
  extractTBAux (splitLinesL page_text) 0 [] [] none

/-- The SHA-1 preimage of `_stable_table_uid` (`chunk_ingestion.py` lines 171-186):
    `f"{document_id}|{filename}|{page_number}|{table_index_on_page}|{content}"`
    with `content` the first 25 lines of the block. The source applies
    `hashlib.sha1(...).hexdigest()` — a fixed deterministic function — to this
    string, so determinism and bounded-prefix dependence transfer verbatim. -/
def stable_table_uid_raw (document_id : ℕ) (filename : String) (page_number : ℕ)
    (table_index_on_page : ℕ) (lines : List (List Char)) : List Char :=
  let content := joinL (lines.take 25)
  (toString document_id).data ++ '|' :: filename.data
    ++ '|' :: (toString page_number).data
    ++ '|' :: (toString table_index_on_page).data
    ++ '|' :: content

/-- `_stable_table_uid(...)`, modelling the hex digest by its (deterministic) preimage. -/
def stable_table_uid (document_id : ℕ) (filename : String) (page_number : ℕ)
    (table_index_on_page : ℕ) (lines : List (List Char)) : List Char :=
  "tbl_".data ++ stable_table_uid_raw document_id filename page_number table_index_on_page lines

/-- `f"Table (p. {page_no}) #{t_idx}"` (`chunk_ingestion.py` line 365). -/
def table_label_for (page_no t_idx : ℕ) : List Char :=
  "Table (p. ".data ++ (toString page_no).data ++ ") #".data ++ (toString t_idx).data

/-- A persisted chunk row, restricted to the columns `rebuild_chunks` writes
    (`is_table`/`is_definition`/`is_procedure` are constant flags). -/
structure ChunkRecord where
  chunk_index : ℕ
  section_id : Option (List Char)
  heading : Option (List Char)
  page_start : ℕ
  page_end : ℕ
  text : List Char
  chunk_kind : String
  equation_score : ℚ
  table_uid : Option (List Char)
  table_row_index : Option ℕ
  table_label : Option (List Char)
deriving DecidableEq

/-- The content-chunk inserts of `rebuild_chunks` (`chunk_ingestion.py` lines 326-353):
    each chunk of `chunk_document_pages` is stored with kind `"equation"` when its
    equation score reaches 0.45, otherwise its `classify_chunk` kind, and with all
    table columns NULL. -/
def content_chunk_records (pages : List (ℕ × String)) : List ChunkRecord :=
  (chunk_document_pages pages).enum.map (fun p =>
    let eq := equation_score p.2.text
    let kind := if (0.45 : ℚ) ≤ eq then "equation" else classify_chunk p.2.section_id p.2.text
    ⟨p.1, p.2.section_id, p.2.heading, p.2.page_start, p.2.page_end, p.2.text,
      kind, eq, none, none, none⟩)

/-- Stable insert for the `(page_start, page_end)` sort of `chunks_sorted`
    (`chunk_ingestion.py` line 308, Python's stable `sorted`). -/
def insertByPage (x : Chunk) : List Chunk → List Chunk
  | [] => [x]
  | y :: rest =>
    if x.page_start < y.page_start
        || (x.page_start == y.page_start && x.page_end ≤ y.page_end) then
      x :: y :: rest
    else y :: insertByPage x rest

/-- `sorted(chunks, key=lambda c: (c.page_start, c.page_end))`. -/
def sortChunksByPage (chunks : List Chunk) : List Chunk :=
  chunks.foldr insertByPage []

/-- The per-page section context of `rebuild_chunks` (`chunk_ingestion.py`
    lines 311-322): walk the pages, consuming sorted chunks whose `page_start`
    has been reached and remembering the last non-null section id and heading. -/
def sectionContextFold : List Chunk → Option (List Char) → Option (List Char) →
    List (ℕ × String) → List (ℕ × (Option (List Char) × Option (List Char)))
  | _, _, _, [] => []
  | chunksLeft, curSec, curHead, (page_no, _) :: rest =>
    let consumed := chunksLeft.takeWhile (fun c => c.page_start ≤ page_no)
    let remaining := chunksLeft.dropWhile (fun c => c.page_start ≤ page_no)
    let sh := consumed.foldl
      (fun sh c => match c.section_id with
        | some _ => (c.section_id, c.heading)
        | none => sh)
      (curSec, curHead)
    (page_no, sh) :: sectionContextFold remaining sh.1 sh.2 rest

/-- One table-block's row inserts (`chunk_ingestion.py` lines 392-431): each
    non-blank line becomes a `table_rows` row and a `table_row` chunk pinned to
    the block's page, carrying the original extraction index `r_idx`. -/
def rowsToRecords (sec head : Option (List Char)) (page_no : ℕ)
    (uid label : List Char) : List (ℕ × List Char) → ℕ → List ChunkRecord × ℕ
  | [], idx => ([], idx)
  | (r_idx, row) :: rest, idx =>
    let rowText := pyStrip row
    if rowText.isEmpty then rowsToRecords sec head page_no uid label rest idx
    else
      let pr := rowsToRecords sec head page_no uid label rest (idx + 1)
      (⟨idx, sec, head, page_no, page_no, rowText, "table_row", 0,
          some uid, some r_idx, some label⟩ :: pr.1, pr.2)

/-- The table blocks of one page (`chunk_ingestion.py` lines 363-431), with the
    in-page index `t_idx` enumerated from 1; the matching `tables` row carries
    the same `table_uid` and `table_label`. -/
def blocksToRecords (docId : ℕ) (filename : String) (page_no : ℕ)
    (sec_head : Option (List Char) × Option (List Char)) :
    List TableBlock → ℕ → ℕ → List ChunkRecord × ℕ
  | [], _, idx => ([], idx)
  | blk :: rest, t_idx, idx =>
    let uid := stable_table_uid docId filename page_no t_idx blk.lines
    let label := table_label_for page_no t_idx
    let pr := rowsToRecords sec_head.1 sec_head.2 page_no uid label blk.lines.enum idx
    let pr2 := blocksToRecords docId filename page_no sec_head rest (t_idx + 1) pr.2
    (pr.1 ++ pr2.1, pr2.2)

/-- The table-extraction pass over all pages (`chunk_ingestion.py` lines 356-431). -/
def table_records_aux (docId : ℕ) (filename : String)
    (ctx : ℕ → Option (List Char) × Option (List Char)) :
    List (ℕ × String) → ℕ → List ChunkRecord
  | [], _ => []
  | (page_no, page_text) :: rest, idx =>
    let blocks := extract_table_blocks page_text.data
    let pr := blocksToRecords docId filename page_no (ctx page_no) blocks 1 idx
    pr.1 ++ table_records_aux docId filename ctx rest pr.2

/-- `_TABLE_TOKEN_RE` group 1 (`chunk_ingestion.py` line 13):
    `\b(?:table|tab\.)\s*(\d{3}\.\d{2}(?:\.\d{2})?-\d+)\b`, case-insensitive,
    parsed at the current position. -/
def tableTokenAt (l : List Char) : Option (List Char) :=
  let low := pyLower l
  let afterKw : Option (List Char) :=
    if "table".data.isPrefixOf low then some (l.drop 5)
    else if "tab.".data.isPrefixOf low then some (l.drop 4)
    else none
  match afterKw with
  | none => none
  | some rest =>
    let body := rest.dropWhile isWsC
    match body with
    | d1 :: d2 :: d3 :: '.' :: d4 :: d5 :: rest2 =>
      if isDigitC d1 && isDigitC d2 && isDigitC d3 && isDigitC d4 && isDigitC d5 then
        let idPart := [d1, d2, d3, '.', d4, d5]
        let tryTail : List Char → Option (List Char) × List Char := fun tl =>
          match tl with
          | '.' :: d6 :: d7 :: rest3 =>
            if isDigitC d6 && isDigitC d7 then (some ['.', d6, d7], rest3)
            else (none, tl)
          | _ => (none, tl)
        let ext := tryTail rest2
        let finish : List Char → List Char → Option (List Char) := fun idAll tl =>
          match tl with
          | '-' :: tl2 =>
            let ds := tl2.takeWhile isDigitC
            if !ds.isEmpty && boundaryAfterOk (tl2.drop ds.length) then
              some (idAll ++ '-' :: ds)
            else none
          | _ => none
        match ext.1 with
        | some mid =>
          match finish (idPart ++ mid) ext.2 with
          | some tok => some tok
          | none => finish idPart rest2
        | none => finish idPart rest2
      else none
    | _ => none

/-- Scan `chunk.text` for the first inline table token (`_TABLE_TOKEN_RE.search`). -/
def tableTokenSearch : Option Char → List Char → Option (List Char)
  | _, [] => none
  | prev, c :: cs =>
    (if boundaryBeforeOk prev then tableTokenAt (c :: cs) else none).orElse
      (fun _ => tableTokenSearch (some c) cs)

/-- `link_table_uids_for_document` (`chunk_ingestion.py` lines 237-270), with the
    document-store resolution `_resolve_table_uid` — a query against the external
    store — passed in as `resolve page_start token ↦ (table_uid, table_label)?`:
    non-toc, non-front-matter chunks without a `table_uid` whose text mentions a
    table token get the resolved uid and label; nothing else changes. -/
def link_one_chunk (resolve : ℕ → List Char → Option (List Char × List Char))
    (c : ChunkRecord) : ChunkRecord :=
  if (!(c.chunk_kind == "toc") && !(c.chunk_kind == "front_matter"))
      && c.table_uid.isNone then
    match tableTokenSearch none c.text with
    | some token =>
      match resolve c.page_start token with
      | some ul => { c with table_uid := some ul.1, table_label := some ul.2 }
      | none => c
    | none => c
  else c

/-- The mapping pass of `link_table_uids_for_document`. -/
def link_table_uids (resolve : ℕ → List Char → Option (List Char × List Char))
    (chunks : List ChunkRecord) : List ChunkRecord :=
  chunks.map (link_one_chunk resolve)

/-- The per-document body of `rebuild_chunks` (`chunk_ingestion.py` lines 292-433):
    content chunks, then table-row chunks with continuing `chunk_index`, then the
    table-uid linking pass. -/
def rebuild_document_chunks (docId : ℕ) (filename : String)
    (resolve : ℕ → List Char → Option (List Char × List Char))
    (pages : List (ℕ × String)) : List ChunkRecord :=
  let content := content_chunk_records pages
  let chunksSorted := sortChunksByPage (chunk_document_pages pages)
  let ctxList := sectionContextFold chunksSorted none none pages
  let ctx := fun p => (ctxList.lookup p).getD (none, none)
  let tableRecs := table_records_aux docId filename ctx pages content.length
  link_table_uids resolve (content ++ tableRecs)

/-- The C7 chunk invariant as a decidable check: `page_start ≤ page_end`, and
    `table_row_index` is set exactly when the kind is `table_row`. -/
def chunk_invariant (c : ChunkRecord) : Bool :=
  decide (c.page_start ≤ c.page_end)
    && (c.table_row_index.isSome == decide (c.chunk_kind = "table_row"))

/-- Invariant carried through `chunk_document_pages`: emitted chunks have ordered
    page ranges, and the open accumulation satisfies `cur_start ≤ cur_end ≤ b`. -/
def StInv (st : ChunkAcc) (b : ℕ) : Prop :=
  (∀ c ∈ st.chunks, c.page_start ≤ c.page_end) ∧
  (∀ s e, st.cur_start = some s → st.cur_end = some e → s ≤ e) ∧
  (∀ s, st.cur_start = some s → s ≤ b) ∧
  (∀ e, st.cur_end = some e → e ≤ b)

lemma StInv_mono (st : ChunkAcc) (b b' : ℕ) (hbb : b ≤ b') (h : StInv st b) :
    StInv st b' := by
  obtain ⟨h1, h2, h3, h4⟩ := h
  exact ⟨h1, h2, fun s hs => le_trans (h3 s hs) hbb, fun e he => le_trans (h4 e he) hbb⟩

lemma flushAcc_StInv (st : ChunkAcc) (b : ℕ) (h : StInv st b) :
    StInv (flushAcc st) b := by
  obtain ⟨h1, h2, h3, h4⟩ := h
  unfold flushAcc
  match hs : st.cur_start, he : st.cur_end with
  | some s, some e =>
    dsimp only
    by_cases hb : st.cur_buf.isEmpty
    · rw [if_pos hb]
      exact ⟨h1, h2, h3, h4⟩
    · rw [if_neg hb]
      refine ⟨?_, ?_, ?_, ?_⟩
      · intro c hc
        by_cases htext : (pyStrip (joinL st.cur_buf)).isEmpty
        · rw [if_pos htext] at hc
          exact h1 c hc
        · rw [if_neg htext] at hc
          rcases List.mem_append.mp hc with hc | hc
          · exact h1 c hc
          · have hceq : c = ⟨st.cur_section, st.cur_heading, s, e, pyStrip (joinL st.cur_buf)⟩ := by
              simpa using hc
            subst hceq
            exact h2 s e hs he
      · intro x y hx hy
        simp at hx
      · intro x hx
        simp at hx
      · intro x hx
        simp at hx
  | some _, none => exact ⟨h1, h2, h3, h4⟩
  | none, _ => exact ⟨h1, h2, h3, h4⟩

lemma stepSeg_StInv (b : ℕ) (st : ChunkAcc) (seg : PageSegment) (h : StInv st b) :
    StInv (stepSeg b st seg) b := by
  unfold stepSeg
  by_cases hs : st.cur_start.isNone
  · obtain ⟨h1, _, _, _⟩ := h
    simp only [hs, if_true]
    refine ⟨h1, ?_, ?_, ?_⟩ <;> intro x hx <;> simp_all
  · simp only [hs, if_false]
    by_cases hm : (seg.section_id.isSome && decide (seg.section_id ≠ st.cur_section)) = true
    · obtain ⟨h1', h2', h3', h4'⟩ := flushAcc_StInv st b h
      simp only [hm, if_true]
      refine ⟨h1', ?_, ?_, ?_⟩ <;> intro x hx <;> simp_all
    · obtain ⟨h1, h2, h3, h4⟩ := h
      simp only [hm, if_false]
      by_cases hn : (st.cur_section.isNone && seg.section_id.isSome) = true
      · simp only [hn, if_true]
        refine ⟨h1, ?_, ?_, ?_⟩
        · intro x e hx he
          simp only [Option.some.injEq] at he
          subst he
          exact h3 x hx
        · intro x hx
          exact h3 x hx
        · intro e he
          simp only [Option.some.injEq] at he
          omega
      · simp only [hn, if_false]
        refine ⟨h1, ?_, ?_, ?_⟩
        · intro x e hx he
          simp only [Option.some.injEq] at he
          subst he
          exact h3 x hx
        · intro x hx
          exact h3 x hx
        · intro e he
          simp only [Option.some.injEq] at he
          omega

lemma foldl_stepSeg_StInv (b : ℕ) (segs : List PageSegment) (st : ChunkAcc)
    (h : StInv st b) : StInv (segs.foldl (stepSeg b) st) b := by
  induction segs generalizing st with
  | nil => exact h
  | cons s ss ih => exact ih _ (stepSeg_StInv b st s h)

lemma fold_pages_StInv (pages : List (ℕ × String)) (st : ChunkAcc) (b : ℕ)
    (hsort : List.Sorted (· ≤ ·) (pages.map Prod.fst))
    (hb : ∀ p ∈ pages, b ≤ p.1) (h : StInv st b) :
    ∃ b', StInv (pages.foldl
      (fun st p => (split_page_into_segments p.2.data).foldl (stepSeg p.1) st) st) b' := by
  induction pages generalizing st b with
  | nil => exact ⟨b, h⟩
  | cons p ps ih =>
    rw [List.map_cons, List.sorted_cons] at hsort
    obtain ⟨hple, hsort'⟩ := hsort
    have hbp : b ≤ p.1 := hb p (List.mem_cons_self _ _)
    have h1 : StInv st p.1 := StInv_mono st b p.1 hbp h
    have h2 := foldl_stepSeg_StInv p.1 (split_page_into_segments p.2.data) st h1
    rw [List.foldl_cons]
    exact ih _ p.1 hsort' (fun q hq => hple q.1 (List.mem_map_of_mem _ hq)) h2

lemma chunk_document_pages_page_le (pages : List (ℕ × String))
    (hsort : List.Sorted (· ≤ ·) (pages.map Prod.fst)) :
    ∀ c ∈ chunk_document_pages pages, c.page_start ≤ c.page_end := by
  unfold chunk_document_pages
  have hinit : StInv ⟨[], none, none, none, none, []⟩ 0 := by
    refine ⟨?_, ?_, ?_, ?_⟩ <;> intro x hx <;> simp_all
  obtain ⟨b', hinv⟩ := fold_pages_StInv pages _ 0 hsort (fun _ _ => Nat.zero_le _) hinit
  exact (flushAcc_StInv _ b' hinv).1

lemma content_kind_ne_table_row (sec : Option (List Char)) (text : List Char) (q : ℚ) :
    (if (0.45 : ℚ) ≤ q then "equation" else classify_chunk sec text) ≠ "table_row" := by
  by_cases hq : (0.45 : ℚ) ≤ q
  · rw [if_pos hq]
    decide
  · rw [if_neg hq]
    unfold classify_chunk
    by_cases ht : looks_like_toc_block text
    · rw [if_pos ht]
      decide
    · rw [if_neg ht]
      cases sec with
      | none => decide
      | some s =>
        dsimp only
        decide

lemma mem_enumFrom_snd {α : Type _} (l : List α) (n : ℕ) (p : ℕ × α)
    (h : p ∈ l.enumFrom n) : p.2 ∈ l := by
  induction l generalizing n with
  | nil => simp [List.enumFrom] at h
  | cons a as ih =>
    rw [List.enumFrom] at h
    rcases List.mem_cons.mp h with h | h
    · subst h
      exact List.mem_cons_self _ _
    · exact List.mem_cons_of_mem _ (ih _ h)

lemma content_chunk_records_invariant (pages : List (ℕ × String))
    (hsort : List.Sorted (· ≤ ·) (pages.map Prod.fst)) :
    ∀ r ∈ content_chunk_records pages, chunk_invariant r = true := by
  intro r hr
  unfold content_chunk_records at hr
  obtain ⟨p, hp, hre⟩ := List.mem_map.mp hr
  have hch : p.2 ∈ chunk_document_pages pages := mem_enumFrom_snd _ 0 p hp
  have hle : p.2.page_start ≤ p.2.page_end := chunk_document_pages_page_le pages hsort p.2 hch
  have hkind := content_kind_ne_table_row p.2.section_id p.2.text (equation_score p.2.text)
  subst hre
  unfold chunk_invariant
  simp [hle, hkind]

lemma rowsToRecords_invariant (sec head : Option (List Char)) (page_no : ℕ)
    (uid label : List Char) (rows : List (ℕ × List Char)) (idx : ℕ) :
    ∀ r ∈ (rowsToRecords sec head page_no uid label rows idx).1, chunk_invariant r = true := by
  induction rows generalizing idx with
  | nil => simp [rowsToRecords]
  | cons row rest ih =>
    intro r hr
    obtain ⟨ri, rowText⟩ := row
    unfold rowsToRecords at hr
    by_cases hempty : (pyStrip rowText).isEmpty
    · rw [if_pos hempty] at hr
      exact ih idx r hr
    · rw [if_neg hempty] at hr
      rcases List.mem_cons.mp hr with hr | hr
      · subst hr
        unfold chunk_invariant
        simp
      · exact ih (idx + 1) r hr

lemma blocksToRecords_invariant (docId : ℕ) (filename : String) (page_no : ℕ)
    (sec_head : Option (List Char) × Option (List Char)) (blocks : List TableBlock)
    (t_idx idx : ℕ) :
    ∀ r ∈ (blocksToRecords docId filename page_no sec_head blocks t_idx idx).1,
      chunk_invariant r = true := by
  induction blocks generalizing t_idx idx with
  | nil => simp [blocksToRecords]
  | cons blk rest ih =>
    intro r hr
    unfold blocksToRecords at hr
    rcases List.mem_append.mp hr with hr | hr
    · exact rowsToRecords_invariant _ _ _ _ _ _ _ r hr
    · exact ih _ _ r hr

lemma table_records_aux_invariant (docId : ℕ) (filename : String)
    (ctx : ℕ → Option (List Char) × Option (List Char)) (pages : List (ℕ × String))
    (idx : ℕ) :
    ∀ r ∈ table_records_aux docId filename ctx pages idx, chunk_invariant r = true := by
  induction pages generalizing idx with
  | nil => simp [table_records_aux]
  | cons p rest ih =>
    intro r hr
    obtain ⟨page_no, page_text⟩ := p
    unfold table_records_aux at hr
    rcases List.mem_append.mp hr with hr | hr
    · exact blocksToRecords_invariant _ _ _ _ _ _ _ r hr
    · exact ih _ r hr

lemma chunk_invariant_link_one (resolve : ℕ → List Char → Option (List Char × List Char))
    (c : ChunkRecord) : chunk_invariant (link_one_chunk resolve c) = chunk_invariant c := by
  unfold link_one_chunk
  by_cases h1 : ((!(c.chunk_kind == "toc") && !(c.chunk_kind == "front_matter"))
      && c.table_uid.isNone)
  · rw [if_pos h1]
    cases htok : tableTokenSearch none c.text with
    | none => rfl
    | some token =>
      dsimp only
      cases hres : resolve c.page_start token with
      | none => rfl
      | some ul => rfl
  · rw [if_neg h1]

/-- Claim C7: every chunk row produced by a rebuild over pages in ascending page
    order satisfies `page_start ≤ page_end`, and `table_row_index` is set if and
    only if `chunk_kind = "table_row"` (content chunks are written with NULL
    `table_row_index` and a kind among equation/toc/front_matter/content, table
    rows with kind `table_row` and their extraction index; the uid-linking pass
    touches only `table_uid`/`table_label`). -/
theorem C7_chunk_invariant_holds (docId : ℕ) (filename : String)
    (resolve : ℕ → List Char → Option (List Char × List Char))
    (pages : List (ℕ × String))
    (hsort : List.Sorted (· ≤ ·) (pages.map Prod.fst)) :
    ((rebuild_document_chunks docId filename resolve pages).all chunk_invariant) = true := by
  rw [List.all_eq_true]
  intro c hc
  unfold rebuild_document_chunks at hc
  unfold link_table_uids at hc
  obtain ⟨c0, hc0, hce⟩ := List.mem_map.mp hc
  subst hce
  rw [chunk_invariant_link_one]
  rcases List.mem_append.mp hc0 with h | h
  · exact content_chunk_records_invariant pages hsort c0 h
  · exact table_records_aux_invariant _ _ _ _ _ c0 h

/-- Witness for C7 on a concrete two-page document with a subsection header. -/
theorem C7_chunk_invariant_holds_witness :
    List.Sorted (· ≤ ·) (([((1 : ℕ), ("701.01  DESCRIPTION\nbody text" : String)),
        ((2 : ℕ), ("more body" : String))]).map Prod.fst) ∧
    ((rebuild_document_chunks 1 "spec.pdf" (fun _ _ => none)
        [((1 : ℕ), ("701.01  DESCRIPTION\nbody text" : String)),
         ((2 : ℕ), ("more body" : String))]).all chunk_invariant) = true :=
  ⟨by decide, C7_chunk_invariant_holds 1 "spec.pdf" (fun _ _ => none) _ (by decide)⟩

/-- Claim C8: the table identifier is a deterministic function of the document
    id, filename, page number, in-page table index and a bounded prefix (first
    25 lines) of the block's row text — lines beyond the 25th do not affect it —
    and the rebuild (a pure function of the documents/pages state here) assigns
    identical uids on repeated runs over an unchanged state. The source's SHA-1
    hex digest is a fixed function applied to the modelled preimage, so equality
    of preimages gives equality of uids. -/
theorem C8_table_uid_stability (docId : ℕ) (filename : String) (page t_idx : ℕ)
    (lines lines' : List (List Char))
    (resolve : ℕ → List Char → Option (List Char × List Char))
    (pages : List (ℕ × String))
    (h : lines.take 25 = lines'.take 25) :
    stable_table_uid docId filename page t_idx lines
      = stable_table_uid docId filename page t_idx lines' ∧
    rebuild_document_chunks docId filename resolve pages
      = rebuild_document_chunks docId filename resolve pages := by
  refine ⟨?_, rfl⟩
  unfold stable_table_uid stable_table_uid_raw
  rw [h]

/-- Witness for C8: a 25-line block and the same block with a 26th line get the
    same uid. -/
theorem C8_table_uid_stability_witness :
    (List.replicate 25 "row".data).take 25
        = ((List.replicate 25 "row".data) ++ ["extra".data]).take 25 ∧
    (stable_table_uid 7 "spec.pdf" 3 1 (List.replicate 25 "row".data)
        = stable_table_uid 7 "spec.pdf" 3 1 ((List.replicate 25 "row".data) ++ ["extra".data]) ∧
      rebuild_document_chunks 7 "spec.pdf" (fun _ _ => none) [((1 : ℕ), ("x" : String))]
        = rebuild_document_chunks 7 "spec.pdf" (fun _ _ => none) [((1 : ℕ), ("x" : String))]) :=
  ⟨by decide,
   C8_table_uid_stability 7 "spec.pdf" 3 1 (List.replicate 25 "row".data)
     ((List.replicate 25 "row".data) ++ ["extra".data]) (fun _ _ => none)
     [((1 : ℕ), ("x" : String))] (by decide)⟩

/-! ## bm25_chunks.py: filtered lexical chunk search

The BM25 scores themselves come from the external `rank_bm25` library
(`index.bm25.get_scores(tokenize(query))`), outside this repository, so the
score vector is passed in as data; the in-repo ranking, scope filtering and
zero-score fallback (`bm25_chunks.py` lines 131-197) are embedded below. -/

/-- The indexed metadata of one chunk, restricted to the fields
    `bm25_chunks_search_filtered` reads. -/
structure ChunkMeta where
  chunk_id : ℕ
  doc_type : String
  mp_id : Option String
  equation_score : ℚ
  text : String
deriving DecidableEq, Inhabited

/-- A lexical hit, restricted to score, chunk id and snippet (the remaining
    columns are copied through from the metadata unchanged). -/
structure BM25ChunkHit where
  score : ℚ
  chunk_id : ℕ
  snippet : List Char
deriving DecidableEq

/-- `allowed(i)` from `bm25_chunks_search_filtered` (`bm25_chunks.py` lines 145-162). -/
def bm25_allowed (scope : String) (mp_ids_norm : List (List Char))
    (minEq : Option ℚ) (m : ChunkMeta) : Bool :=
  let doc_type := pyLower m.doc_type.data
  let mp_id := (m.mp_id.getD "").data
  if (match minEq with
      | some t => decide (m.equation_score < t)
      | none => false) then false
  else if scope == "all" then true
  else if scope == "standspec" then doc_type == "standspec".data
  else if scope == "scheduling" then doc_type == "scheduling".data
  else if scope == "mp" then doc_type == "mp".data
  else if scope == "mp_only" then
    doc_type == "mp".data && mp_ids_norm.contains (pyUpper mp_id)
  else true

/-- The snippet of a hit: `text[:350].replace("\n" , " ").strip()` with an
    ellipsis when truncated (`bm25_chunks.py` line 173). -/
def bm25_snippet (text : List Char) : List Char :=
  let t := pyStrip ((text.take 350).map (fun c => if c = '\n' then ' ' else c))
  if 350 < text.length then t ++ ['…'] else t

/-- Stable insertion for descending score order: the incoming (smaller) original
    index goes before a later index of equal score, exactly as Python's stable
    `sorted(range(len(scores)), key=lambda i: scores[i], reverse=True)`. -/
def insertIdxByScore (scores : List ℚ) (i : ℕ) : List ℕ → List ℕ
  | [] => [i]
  | j :: rest =>
    if scores.getD j 0 ≤ scores.getD i 0 then i :: j :: rest
    else j :: insertIdxByScore scores i rest

/-- `ranked_all` (`bm25_chunks.py` line 164): all indices in stable descending
    score order. -/
def bm25_ranked_all (scores : List ℚ) : List ℕ :=
  (List.range scores.length).foldr (insertIdxByScore scores) []

/-- The scope predicate applied to index `i` of the metadata list. -/
def bm25_scope_pred (scope : String) (mp_ids : List String) (minEq : Option ℚ)
    (meta : List ChunkMeta) (i : ℕ) : Bool :=
  bm25_allowed scope (mp_ids.map (fun m => pyUpper m.data)) minEq (meta.getD i default)

/-- `bm25_chunks_search_filtered` (`bm25_chunks.py` lines 131-197) after index
    loading and scoring: rank all indices by score, keep allowed indices with
    strictly positive score up to `k`, and if none remain fall back to the first
    `k` allowed indices regardless of score; then build hits. -/
def bm25_chunks_search_filtered (scores : List ℚ) (meta : List ChunkMeta)
    (k : ℕ) (scope : String) (mp_ids : List String) (minEq : Option ℚ) :
    List BM25ChunkHit :=
  let allowed := bm25_scope_pred scope mp_ids minEq meta
  let ranked_all := bm25_ranked_all scores
  let ranked_pos :=
    (ranked_all.filter (fun i => allowed i && decide (0 < scores.getD i 0))).take k
  let ranked := if ranked_pos.isEmpty then (ranked_all.filter allowed).take k else ranked_pos
  ranked.map (fun i =>
    let m := meta.getD i default
    ⟨scores.getD i 0, m.chunk_id, bm25_snippet m.text.data⟩)

lemma insertIdxByScore_perm (scores : List ℚ) (i : ℕ) (l : List ℕ) :
    (insertIdxByScore scores i l).Perm (i :: l) := by
  induction l with
  | nil => exact List.Perm.refl _
  | cons j rest ih =>
    unfold insertIdxByScore
    by_cases h : scores.getD j 0 ≤ scores.getD i 0
    · rw [if_pos h]
    · rw [if_neg h]
      exact List.Perm.trans (List.Perm.cons j ih) (List.Perm.swap i j rest)

lemma bm25_ranked_all_perm (scores : List ℚ) :
    (bm25_ranked_all scores).Perm (List.range scores.length) := by
  unfold bm25_ranked_all
  generalize List.range scores.length = l
  induction l with
  | nil => exact List.Perm.refl _
  | cons x xs ih =>
    rw [List.foldr_cons]
    exact List.Perm.trans (insertIdxByScore_perm scores x _) (List.Perm.cons x ih)

lemma mem_bm25_ranked_all_iff (scores : List ℚ) (i : ℕ) :
    i ∈ bm25_ranked_all scores ↔ i < scores.length := by
  rw [(bm25_ranked_all_perm scores).mem_iff, List.mem_range]

/-- Claim C10: when no in-scope chunk has a strictly positive BM25 score, the
    search still returns the first `k` in-scope indices of the score-ordered
    ranking — hence a non-empty hit list whenever some chunk satisfies the scope
    predicate and `k ≥ 1` — and every returned hit's score is ≤ 0. -/
theorem C10_zero_score_fallback (scores : List ℚ) (meta : List ChunkMeta)
    (k : ℕ) (scope : String) (mp_ids : List String) (minEq : Option ℚ)
    (hk : 1 ≤ k)
    (hnopos : ∀ i < scores.length,
      bm25_scope_pred scope mp_ids minEq meta i = true → scores.getD i 0 ≤ 0)
    (hex : ∃ i, i < scores.length ∧ bm25_scope_pred scope mp_ids minEq meta i = true) :
    bm25_chunks_search_filtered scores meta k scope mp_ids minEq
      = (((bm25_ranked_all scores).filter (bm25_scope_pred scope mp_ids minEq meta)).take k).map
          (fun i =>
            ⟨scores.getD i 0, (meta.getD i default).chunk_id,
              bm25_snippet (meta.getD i default).text.data⟩) ∧
    (bm25_chunks_search_filtered scores meta k scope mp_ids minEq).isEmpty = false ∧
    (bm25_chunks_search_filtered scores meta k scope mp_ids minEq).all
      (fun h => decide (h.score ≤ 0)) = true := by
  have hposfilter :
      (bm25_ranked_all scores).filter
        (fun i => bm25_scope_pred scope mp_ids minEq meta i
          && decide (0 < scores.getD i 0)) = [] := by
    rw [List.filter_eq_nil_iff]
    intro i hi hcontra
    rw [Bool.and_eq_true, decide_eq_true_eq] at hcontra
    have hilt : i < scores.length := (mem_bm25_ranked_all_iff scores i).mp hi
    have hle := hnopos i hilt hcontra.1
    exact absurd hcontra.2 (not_lt.mpr hle)
  have hmain :
      bm25_chunks_search_filtered scores meta k scope mp_ids minEq
        = (((bm25_ranked_all scores).filter (bm25_scope_pred scope mp_ids minEq meta)).take k).map
            (fun i =>
              ⟨scores.getD i 0, (meta.getD i default).chunk_id,
                bm25_snippet (meta.getD i default).text.data⟩) := by
    unfold bm25_chunks_search_filtered
    dsimp only
    rw [hposfilter, List.take_nil]
    rfl
  refine ⟨hmain, ?_, ?_⟩
  · rw [hmain]
    obtain ⟨i, hilt, hp⟩ := hex
    have himem : i ∈ (bm25_ranked_all scores).filter (bm25_scope_pred scope mp_ids minEq meta) :=
      List.mem_filter.mpr ⟨(mem_bm25_ranked_all_iff scores i).mpr hilt, hp⟩
    obtain ⟨a, rest, hf⟩ :=
      List.exists_cons_of_ne_nil (List.ne_nil_of_mem himem)
    obtain ⟨k', rfl⟩ : ∃ k', k = k' + 1 := ⟨k - 1, by omega⟩
    rw [hf, List.take_succ_cons]
    rfl
  · rw [hmain, List.all_eq_true]
    intro h hh
    obtain ⟨i, hi, hhe⟩ := List.mem_map.mp hh
    have hi' := List.mem_of_mem_take hi
    have hif := List.mem_filter.mp hi'
    have hilt : i < scores.length := (mem_bm25_ranked_all_iff scores i).mp hif.1
    have hle := hnopos i hilt hif.2
    subst hhe
    simpa using hle

/-- Witness for C10: two in-scope chunks with scores 0 and -1, `k = 1`. -/
theorem C10_zero_score_fallback_witness :
    (1 : ℕ) ≤ 1 ∧
    (bm25_chunks_search_filtered [0, -1]
        [⟨10, "standspec", none, 0, "alpha"⟩, ⟨11, "standspec", none, 0, "beta"⟩]
        1 "all" [] none).isEmpty = false ∧
    (bm25_chunks_search_filtered [0, -1]
        [⟨10, "standspec", none, 0, "alpha"⟩, ⟨11, "standspec", none, 0, "beta"⟩]
        1 "all" [] none).all (fun h => decide (h.score ≤ 0)) = true :=
  ⟨le_refl 1,
   (C10_zero_score_fallback [0, -1]
      [⟨10, "standspec", none, 0, "alpha"⟩, ⟨11, "standspec", none, 0, "beta"⟩]
      1 "all" [] none (by decide) (by decide) (by decide)).2.1,
   (C10_zero_score_fallback [0, -1]
      [⟨10, "standspec", none, 0, "alpha"⟩, ⟨11, "standspec", none, 0, "beta"⟩]
      1 "all" [] none (by decide) (by decide) (by decide)).2.2⟩
